import Mathlib

/-!
Shallow embedding of the RiboRez amplicon pipeline
(`InSilico_amplification_hammingfixed_Server.py`,
`analyze_ampliconV2_Server.py`, `Data_centralization_server.py`).
Sequences are lists of characters; Python string slicing `s[a:b]`
(with nonnegative bounds) is `pySlice`.
-/

/-- Python `s[a:b]` for nonnegative bounds: drop `a`, take `b - a`. -/
def pySlice (s : List Char) (a b : Nat) : List Char :=
  (s.drop a).take (b - a)

/-- Gap-stripping, Python `s.replace("-", "")`. -/
def stripGaps (s : List Char) : List Char :=
  s.filter (fun c => c ≠ '-')

/-- Complement of a single base, from `str.maketrans("ACGT", "TGCA")`:
only `A`, `C`, `G`, `T` are complemented, every other character is
left unchanged. -/
def complementChar (c : Char) : Char :=
  if c = 'A' then 'T'
  else if c = 'C' then 'G'
  else if c = 'G' then 'C'
  else if c = 'T' then 'A'
  else c

/-- `reverse_complement` from the source: translate through the base
map, then reverse (`seq.translate(base_map)[::-1]`). -/
def reverse_complement (s : List Char) : List Char :=
  (s.map complementChar).reverse

/-- The inner matching loop of `find_primer_positions` at one scan
offset: walk the pattern and the sequence window in lockstep; a gap
character in the sequence is skipped with `continue`, which advances the
loop index `j` (hence both cursors); otherwise the characters must be
equal. -/
def matchesFrom : List Char → List Char → Bool
  | [], _ => true
  | _ :: _, [] => false
  | p :: ps, c :: cs =>
    if c = '-' then matchesFrom ps cs
    else if p = c then matchesFrom ps cs
    else false

/-- Matching the pattern against window `w` starting at offset `i`
(the code compares `range_seq[i + j]` with `search_seq[j]`). -/
def matchesAt (search w : List Char) (i : Nat) : Bool :=
  matchesFrom search (w.drop i)

/-- The scan loop `for i in range(len(range_seq) - len(search_seq) + 1)`:
first offset at which the pattern matches, if any. -/
def scanWindow (search w : List Char) : Option Nat :=
  (List.range (w.length + 1 - search.length)).find? (fun i => matchesAt search w i)

/-- The `approaches` list built at the top of `find_primer_positions`:
reverse complement first (reverse primers only), the pattern as-is, and
the pattern again for reverse primers. -/
def approaches (primer : List Char) (isReverse : Bool) : List (List Char) :=
  (if isReverse then [reverse_complement primer] else []) ++
    [primer] ++
    (if isReverse then [primer] else [])

/-- One pass of `find_primer_positions`: try each candidate form on the
window; a hit at local offset `i` yields
`(offset + i, offset + i + len(form) - 1)`. -/
def tryWindow (forms : List (List Char)) (offset : Nat) (w : List Char) :
    Option (Nat × Nat) :=
  forms.findSome? (fun form =>
    (scanWindow form w).map (fun i => (offset + i, offset + i + form.length - 1)))

/-- `find_primer_positions(primer_seq, seq, start_range, end_range,
is_reverse)`: exact-range pass, then the range expanded by 20 on each
side (clamped to `[0, len(seq) - 1]`), then the whole sequence; `none`
models the Python return `(None, None, False)`. -/
def find_primer_positions (primer sq : List Char) (startRange endRange : Nat)
    (isReverse : Bool) : Option (Nat × Nat) :=
  let forms := approaches primer isReverse
  match tryWindow forms startRange (pySlice sq startRange (endRange + 1)) with
  | some r => some r
  | none =>
    let expandedStart := startRange - 20
    let expandedEnd := min (sq.length - 1) (endRange + 20)
    match tryWindow forms expandedStart (pySlice sq expandedStart (expandedEnd + 1)) with
    | some r => some r
    | none => tryWindow forms 0 sq

/-- The candidate literal forms in the priority order stated by the
spec: for reverse orientation the reverse complement, the pattern
as-is, then the pattern again; for forward just the pattern. -/
def candidateForms (pattern : List Char) (isReverse : Bool) : List (List Char) :=
  if isReverse then [reverse_complement pattern, pattern, pattern] else [pattern]

/-- The three escalating passes stated by the spec, each as a window
offset paired with the scanned window: the exact range, the range
widened by 20 and clamped, then the whole sequence. -/
def specPasses (sq : List Char) (rs re : Nat) : List (Nat × List Char) :=
  [(rs, pySlice sq rs (re + 1)),
   (rs - 20, pySlice sq (rs - 20) (min (sq.length - 1) (re + 20) + 1)),
   (0, sq)]

/-- The locator as the spec words it: first successful match over the
passes in order, candidate forms in priority order inside each pass. -/
def locateSpec (pattern sq : List Char) (rs re : Nat) (isReverse : Bool) :
    Option (Nat × Nat) :=
  (specPasses sq rs re).findSome? (fun pw =>
    (candidateForms pattern isReverse).findSome? (fun form =>
      (scanWindow form pw.2).map (fun i => (pw.1 + i, pw.1 + i + form.length - 1))))

/-- Gap-transparent matching as the spec words it: a gap consumes one
sequence position but does not advance the pattern cursor, so the same
pattern character is compared against the next sequence position. -/
def specGapConsume : List Char → List Char → Bool
  | [], _ => true
  | _ :: _, [] => false
  | p :: ps, c :: cs =>
    if c = '-' then specGapConsume (p :: ps) cs
    else if c = p then specGapConsume ps cs
    else false

/-- The `ErrorStatus` values written into the output CSV rows. -/
inductive ErrorStatus where
  | OK
  | FORWARD_PRIMER_NOT_FOUND
  | REVERSE_PRIMER_NOT_FOUND
  | PRIMERS_OVERLAP_OR_WRONG_ORDER
  | USING_RANGE_BOUNDARIES
  deriving DecidableEq, Repr

/-- The `error_status` chain of `main`: forward primer checked first,
then the reverse primer, then overlap (`f_actual_end >= r_actual_start`). -/
def computeStatus (fFound rFound : Bool) (fEnd rStart : Nat) : ErrorStatus :=
  if fFound = false then .FORWARD_PRIMER_NOT_FOUND
  else if rFound = false then .REVERSE_PRIMER_NOT_FOUND
  else if rStart ≤ fEnd then .PRIMERS_OVERLAP_OR_WRONG_ORDER
  else .OK

/-- The status adjustment on the fallback branch of `main`:
`if error_status == "OK": error_status = "USING_RANGE_BOUNDARIES"`. -/
def fallbackAdjust (s : ErrorStatus) : ErrorStatus :=
  if s = .OK then .USING_RANGE_BOUNDARIES else s

/-- The per-row coordinate/status logic of `main`: on success the
amplicon is `(f_actual_end + 1, r_actual_start)`; otherwise the
boundaries fall back to the expected range (`fend + 1`, `rstart`) and
an otherwise-OK status becomes `USING_RANGE_BOUNDARIES`. -/
def extractRow (fFound rFound : Bool) (fEnd rStart fend rstart : Nat) :
    ErrorStatus × Nat × Nat :=
  let st := computeStatus fFound rFound fEnd rStart
  if fFound = true ∧ rFound = true ∧ fEnd < rStart then (st, fEnd + 1, rStart)
  else (fallbackAdjust st, fend + 1, rstart)

/-- `amplicon_seq_raw = seq[amp_start:amp_end] if amp_start < amp_end
else ""`. -/
def ampliconSliceRaw (sq : List Char) (ampStart ampEnd : Nat) : List Char :=
  if ampStart < ampEnd then pySlice sq ampStart ampEnd else []

/-- Python substring membership `needle in hay`. -/
def containsSub (hay needle : List Char) : Bool :=
  (List.range (hay.length + 1)).any (fun i => needle.isPrefixOf (hay.drop i))

/-- One primer-pair candidate as parsed by `main` from the JSON entry:
degenerate patterns, variant lists, and the expected ranges. -/
structure PrimerPair where
  fdeg : List Char
  fvars : List (List Char)
  rdeg : List Char
  rvars : List (List Char)
  fstart : Nat
  fend : Nat
  rstart : Nat
  rend : Nat
  deriving DecidableEq, Repr

/-- One output CSV row of `main` (the fields the claims speak about). -/
structure Row where
  header : List Char
  ampStart : Nat
  ampEnd : Nat
  ampliconRaw : List Char
  fmatch : List Char
  rmatch : List Char
  status : ErrorStatus
  deriving DecidableEq, Repr

/-- The body of `main`'s per-sequence loop: the variant pre-screen
(`if not fmatch: continue`, `if not rmatch: continue`) yields `none`
(no row written); otherwise the primers are located and a row is built
from `extractRow` and the amplicon slice. -/
def processSeq (A : PrimerPair) (header sq : List Char) : Option Row :=
  let fSlice := stripGaps (pySlice sq (A.fstart - 1) (A.fend + 2))
  let rSlice := stripGaps (pySlice sq (A.rstart - 1) (A.rend + 2))
  match A.fvars.find? (fun v => containsSub fSlice v) with
  | none => none
  | some fm =>
    if fm.isEmpty then none
    else
      match A.rvars.find? (fun v => containsSub rSlice (reverse_complement v)) with
      | none => none
      | some rm =>
        if rm.isEmpty then none
        else
          let fres := find_primer_positions A.fdeg sq A.fstart A.fend false
          let rres := find_primer_positions A.rdeg sq A.rstart A.rend true
          let fEnd := (fres.map Prod.snd).getD 0
          let rStart := (rres.map Prod.fst).getD 0
          let t := extractRow fres.isSome rres.isSome fEnd rStart A.fend A.rstart
          some { header := header, ampStart := t.2.1, ampEnd := t.2.2,
                 ampliconRaw := ampliconSliceRaw sq t.2.1 t.2.2,
                 fmatch := fm, rmatch := rm, status := t.1 }

/-- `main`'s loop over the aligned sequences: one optional row per
sequence, skipped sequences contribute nothing. -/
def processRows (A : PrimerPair) (seqs : List (List Char × List Char)) : List Row :=
  seqs.filterMap (fun hs => processSeq A hs.1 hs.2)

/-- `hamming_distance`: defined only for equal lengths; the `ValueError`
raised on unequal lengths is modelled as `none`. -/
def hamming_distance (s1 s2 : List Char) : Option Nat :=
  if s1.length = s2.length then
    some ((s1.zip s2).countP (fun p => decide (p.1 ≠ p.2)))
  else none

/-- Count of mismatching aligned positions (the value `hamming_distance`
returns on equal-length inputs). -/
def mismatchCount (s1 s2 : List Char) : Nat :=
  (s1.zip s2).countP (fun p => decide (p.1 ≠ p.2))

/-- Deduplication keeping the first occurrence of each value, given
the values already seen — the loop building `asv_to_headers` by
`setdefault`. -/
def firstOccurrencesAux (seen : List (List Char)) :
    List (List Char) → List (List Char)
  | [] => []
  | s :: rest =>
    if s ∈ seen then firstOccurrencesAux seen rest
    else s :: firstOccurrencesAux (s :: seen) rest

/-- Deduplication keeping the first occurrence of each value — the key
order of a Python dict built by insertion. -/
def firstOccurrences (l : List (List Char)) : List (List Char) :=
  firstOccurrencesAux [] l

/-- All ordered pairs `(l[i], l[j])` with `i < j`, in the order of the
double loop `for i ... for j in range(i+1, ...)`. -/
def offDiagPairs : List (List Char) → List (List Char × List Char)
  | [] => []
  | x :: xs => xs.map (fun y => (x, y)) ++ offDiagPairs xs

/-- The unique amplicon variants of a record list, in first-occurrence
order (the keys of `asv_to_headers`). -/
def uniqueVariants (rows : List (List Char × List Char)) : List (List Char) :=
  firstOccurrences (rows.map Prod.snd)

/-- The pairwise-distance multiset built by `analyze_csv`: every `i < j`
pair of distinct variants, with length-mismatched pairs skipped by the
`except ValueError: continue`. -/
def distancesOf (rows : List (List Char × List Char)) : List Nat :=
  (offDiagPairs (uniqueVariants rows)).filterMap (fun p => hamming_distance p.1 p.2)

/-- Insertion into a sorted list (ascending). -/
def insertSorted (x : Nat) : List Nat → List Nat
  | [] => [x]
  | y :: ys => if x ≤ y then x :: y :: ys else y :: insertSorted x ys

/-- Ascending sort, as `statistics.median` sorts its input. -/
def sortNat (l : List Nat) : List Nat :=
  l.foldr insertSorted []

/-- `statistics.median` on a list of naturals: middle element for odd
length, mean of the two middle elements for even length. -/
def medianQ (l : List Nat) : ℚ :=
  let sorted := sortNat l
  let n := sorted.length
  if n % 2 = 1 then (sorted.getD (n / 2) 0 : ℚ)
  else ((sorted.getD (n / 2 - 1) 0 : ℚ) + (sorted.getD (n / 2) 0 : ℚ)) / 2

/-- `analyze_csv` restricted to its computational outputs
`(num_input, num_unique_asvs, median_hd)`, with the early returns for
zero and one input record. -/
def analyze_csv (rows : List (List Char × List Char)) : Nat × Nat × ℚ :=
  if rows.length = 0 then (0, 0, 0)
  else if rows.length = 1 then (1, 1, 0)
  else
    let dists := distancesOf rows
    (rows.length, (uniqueVariants rows).length,
      if dists.isEmpty then 0 else medianQ dists)

/-- One candidate summary row as read by `extract_best_row`. -/
structure Summary where
  u : Nat
  m : ℚ
  len : Nat
  deriving DecidableEq, Repr

/-- The selection logic of `extract_best_row` on one file's rows:
filter `AmpliconLength < 500`, `none` if nothing survives, otherwise
take the rows attaining the maximal `NumUniqueASVs` and, on a tie, the
first row attaining the maximal `MedianHammingDistance` (`idxmax`). -/
def selectBest (rows : List Summary) : Option Summary :=
  let filtered := rows.filter (fun r => r.len < 500)
  if filtered.isEmpty then none
  else
    let maxU := (filtered.map Summary.u).foldl max 0
    let maxRows := filtered.filter (fun r => r.u = maxU)
    if 1 < maxRows.length then maxRows.argmax Summary.m
    else maxRows.head?

/-! ## Theorems -/

/-- C10: `reverse_complement` complements exactly `A`, `C`, `G`, `T`
(to `T`, `G`, `C`, `A`), leaves every other character unchanged while
reversing the string, and is an involution on strings over
`{A, C, G, T}`. -/
theorem claim_C10_reverse_complement (c : Char) (s : List Char) :
    (complementChar 'A' = 'T' ∧ complementChar 'C' = 'G' ∧
      complementChar 'G' = 'C' ∧ complementChar 'T' = 'A') ∧
    (c ≠ 'A' → c ≠ 'C' → c ≠ 'G' → c ≠ 'T' → complementChar c = c) ∧
    reverse_complement s = (s.map complementChar).reverse ∧
    ((∀ x ∈ s, x = 'A' ∨ x = 'C' ∨ x = 'G' ∨ x = 'T') →
      reverse_complement (reverse_complement s) = s) := by
  refine ⟨by decide, fun h1 h2 h3 h4 => by simp [complementChar, h1, h2, h3, h4],
    rfl, fun hS => ?_⟩
  have hcc : ∀ x ∈ s, complementChar (complementChar x) = x := by
    intro x hx
    rcases hS x hx with rfl | rfl | rfl | rfl <;> decide
  simp only [reverse_complement, List.map_reverse, List.reverse_reverse,
    List.map_map]
  calc s.map (complementChar ∘ complementChar)
      = s.map id := List.map_congr_left (fun a ha => hcc a ha)
    _ = s := List.map_id s

/-- Witness for C10 at a concrete base string and a concrete
non-nucleotide character. -/
theorem claim_C10_witness :
    reverse_complement (reverse_complement ['A', 'C', 'G', 'T']) = ['A', 'C', 'G', 'T'] ∧
    complementChar 'X' = 'X' :=
  ⟨(claim_C10_reverse_complement 'X' ['A', 'C', 'G', 'T']).2.2.2 (by decide),
   (claim_C10_reverse_complement 'X' ['A', 'C', 'G', 'T']).2.1
     (by decide) (by decide) (by decide) (by decide)⟩

/-- C3: the extractor's fixed-order case analysis — both found and in
order gives status `OK` with amplicon `(fwdEnd + 1, revStart)`; a
missing forward primer is reported first, then a missing reverse
primer; both found but out of order gives
`PRIMERS_OVERLAP_OR_WRONG_ORDER`. -/
theorem claim_C3_status_cases (fF rF : Bool) (fE rS a b : Nat) :
    (fF = true → rF = true → fE < rS →
      extractRow fF rF fE rS a b = (.OK, fE + 1, rS)) ∧
    (fF = false → (extractRow fF rF fE rS a b).1 = .FORWARD_PRIMER_NOT_FOUND) ∧
    (fF = true → rF = false → (extractRow fF rF fE rS a b).1 = .REVERSE_PRIMER_NOT_FOUND) ∧
    (fF = true → rF = true → rS ≤ fE →
      (extractRow fF rF fE rS a b).1 = .PRIMERS_OVERLAP_OR_WRONG_ORDER) := by
  refine ⟨fun h1 h2 h3 => ?_, fun h1 => ?_, fun h1 h2 => ?_, fun h1 h2 h3 => ?_⟩
  · subst h1; subst h2
    simp [extractRow, computeStatus, h3, Nat.not_le.mpr h3]
  · subst h1
    simp [extractRow, computeStatus, fallbackAdjust]
  · subst h1; subst h2
    simp [extractRow, computeStatus, fallbackAdjust]
  · subst h1; subst h2
    simp [extractRow, computeStatus, fallbackAdjust, h3, Nat.not_lt.mpr h3]

/-- Witness for C3: one concrete instance of each status case. -/
theorem claim_C3_witness :
    extractRow true true 3 7 1 2 = (.OK, 4, 7) ∧
    (extractRow false true 0 0 3 7).1 = .FORWARD_PRIMER_NOT_FOUND ∧
    (extractRow true false 0 0 3 7).1 = .REVERSE_PRIMER_NOT_FOUND ∧
    (extractRow true true 7 3 0 0).1 = .PRIMERS_OVERLAP_OR_WRONG_ORDER :=
  ⟨(claim_C3_status_cases true true 3 7 1 2).1 rfl rfl (by decide),
   (claim_C3_status_cases false true 0 0 3 7).2.1 rfl,
   (claim_C3_status_cases true false 0 0 3 7).2.2.1 rfl rfl,
   (claim_C3_status_cases true true 7 3 0 0).2.2.2 rfl rfl (by decide)⟩

/-- C4: in every non-OK case the amplicon boundaries fall back to the
expected range boundaries `(rangeFwdEnd + 1, rangeRevStart)`; on the
fallback branch an otherwise-OK status is replaced by
`USING_RANGE_BOUNDARIES`; and the concrete scenario
`fwdEnd = 100`, `revStart = 95` (both found) yields
`PRIMERS_OVERLAP_OR_WRONG_ORDER` with range-boundary fallback. -/
theorem claim_C4_fallback (fF rF : Bool) (fE rS a b : Nat) :
    ((extractRow fF rF fE rS a b).1 ≠ .OK →
      (extractRow fF rF fE rS a b).2 = (a + 1, b)) ∧
    fallbackAdjust .OK = .USING_RANGE_BOUNDARIES ∧
    extractRow true true 100 95 a b = (.PRIMERS_OVERLAP_OR_WRONG_ORDER, a + 1, b) := by
  refine ⟨fun hne => ?_, rfl, ?_⟩
  · by_cases hc : fF = true ∧ rF = true ∧ fE < rS
    · obtain ⟨h1, h2, h3⟩ := hc
      subst h1; subst h2
      exact absurd (by simp [extractRow, computeStatus, h3, Nat.not_le.mpr h3]) hne
    · simp [extractRow, hc]
  · simp [extractRow, computeStatus, fallbackAdjust]

/-- Witness for C4: concrete fallback instances. -/
theorem claim_C4_witness :
    (extractRow false true 0 0 3 7).2 = (4, 7) ∧
    extractRow true true 100 95 3 7 = (.PRIMERS_OVERLAP_OR_WRONG_ORDER, 4, 7) :=
  ⟨(claim_C4_fallback false true 0 0 3 7).1 (by decide),
   (claim_C4_fallback true true 100 95 3 7).2.2⟩

/-- C8: a record's gapped amplicon is empty whenever the computed start
is not strictly below the end (never negative-length), and otherwise it
is exactly the alignment slice between the two indices; every record
produced by the per-sequence loop stores exactly that slice. -/
theorem claim_C8_amplicon_invariant (sq : List Char) (a b : Nat)
    (A : PrimerPair) (hd sq2 : List Char) (row : Row) :
    (b ≤ a → ampliconSliceRaw sq a b = []) ∧
    (a < b → ampliconSliceRaw sq a b = pySlice sq a b) ∧
    (processSeq A hd sq2 = some row →
      row.ampliconRaw = ampliconSliceRaw sq2 row.ampStart row.ampEnd) := by
  refine ⟨fun hba => ?_, fun hab => ?_, fun hps => ?_⟩
  · simp [ampliconSliceRaw, Nat.not_lt.mpr hba]
  · simp [ampliconSliceRaw, hab]
  · simp only [processSeq] at hps
    split at hps
    · exact absurd hps (by simp)
    · split at hps
      · exact absurd hps (by simp)
      · split at hps
        · exact absurd hps (by simp)
        · split at hps
          · exact absurd hps (by simp)
          · cases hps
            rfl

/-- Witness for C8: the empty-amplicon guard, the slice case, and a
concrete record from the per-sequence loop. -/
theorem claim_C8_witness :
    ampliconSliceRaw ['A', 'C'] 5 3 = [] ∧
    ampliconSliceRaw ['A', 'C', 'G'] 0 2 = pySlice ['A', 'C', 'G'] 0 2 ∧
    (⟨['h'], 2, 4, ['T', 'T'], ['T'], ['A'], .FORWARD_PRIMER_NOT_FOUND⟩ : Row).ampliconRaw =
      ampliconSliceRaw ['T', 'T', 'T', 'T', 'T', 'T'] 2 4 :=
  ⟨(claim_C8_amplicon_invariant ['A', 'C'] 5 3 ⟨[], [], [], [], 0, 0, 0, 0⟩ [] []
      ⟨[], 0, 0, [], [], [], .OK⟩).1 (by decide),
   (claim_C8_amplicon_invariant ['A', 'C', 'G'] 0 2 ⟨[], [], [], [], 0, 0, 0, 0⟩ [] []
      ⟨[], 0, 0, [], [], [], .OK⟩).2.1 (by decide),
   (claim_C8_amplicon_invariant [] 0 0 ⟨['N'], [['T']], ['N'], [['A']], 0, 1, 4, 5⟩ ['h']
      ['T', 'T', 'T', 'T', 'T', 'T']
      ⟨['h'], 2, 4, ['T', 'T'], ['T'], ['A'], .FORWARD_PRIMER_NOT_FOUND⟩).2.2 (by decide)⟩

/-- C1: the locator performs exactly the three escalating passes in
fixed order (exact range, range widened by 20 clamped to
`[0, len(sequence) - 1]`, whole sequence), trying the candidate literal
forms in priority order inside each pass; the first hit yields
`start = window offset + local index` and
`end = start + len(form) - 1`, and when no pass matches the result is
the not-found signal. -/
theorem claim_C1_locator_passes (pattern sq : List Char) (rs re : Nat) (rev : Bool) :
    find_primer_positions pattern sq rs re rev = locateSpec pattern sq rs re rev ∧
    ((∀ pw ∈ specPasses sq rs re, ∀ form ∈ candidateForms pattern rev,
        scanWindow form pw.2 = none) →
      find_primer_positions pattern sq rs re rev = none) := by
  have happ : approaches pattern rev = candidateForms pattern rev := by
    cases rev <;> rfl
  have hinner : ∀ pw : Nat × List Char,
      (candidateForms pattern rev).findSome? (fun form =>
        (scanWindow form pw.2).map (fun i => (pw.1 + i, pw.1 + i + form.length - 1))) =
      tryWindow (candidateForms pattern rev) pw.1 pw.2 := fun _ => rfl
  have heq : find_primer_positions pattern sq rs re rev = locateSpec pattern sq rs re rev := by
    simp only [locateSpec, specPasses, List.findSome?_cons, List.findSome?_nil, hinner,
      find_primer_positions, happ]
    cases h1 : tryWindow (candidateForms pattern rev) rs (pySlice sq rs (re + 1)) with
    | some r => rfl
    | none =>
      cases h2 : tryWindow (candidateForms pattern rev) (rs - 20)
          (pySlice sq (rs - 20) (min (sq.length - 1) (re + 20) + 1)) with
      | some r => rfl
      | none =>
        cases h3 : tryWindow (candidateForms pattern rev) 0 sq with
        | some r => rfl
        | none => rfl
  refine ⟨heq, fun hall => ?_⟩
  rw [heq]
  unfold locateSpec
  rw [List.findSome?_eq_none_iff]
  intro pw hpw
  rw [hinner, tryWindow, List.findSome?_eq_none_iff]
  intro form hform
  rw [hall pw hpw form hform]
  rfl

/-- Witness for C1: a concrete input on which every pass fails and the
locator returns the not-found signal. -/
theorem claim_C1_witness :
    find_primer_positions ['A'] ['T', 'T'] 0 1 false = none :=
  (claim_C1_locator_passes ['A'] ['T', 'T'] 0 1 false).2 (by decide)


/-- Pointwise characterization of the code's matcher: under the scan
bound, a window matches iff every window position is a gap or agrees
with the pattern character at the same offset. -/
lemma matchesFrom_iff_pointwise : ∀ (p t : List Char), p.length ≤ t.length →
    (matchesFrom p t = true ↔
      ∀ pr ∈ (t.take p.length).zip p, pr.1 = '-' ∨ pr.1 = pr.2)
  | [], t, _ => by simp [matchesFrom]
  | p :: ps, [], h => by simp at h
  | p :: ps, c :: cs, h => by
    have hlen : ps.length ≤ cs.length := by simpa using h
    have IH := matchesFrom_iff_pointwise ps cs hlen
    by_cases hc : c = '-'
    · subst hc
      have hM : matchesFrom (p :: ps) ('-' :: cs) = matchesFrom ps cs := by
        simp [matchesFrom]
      rw [hM, IH]
      simp
    · by_cases hpc : p = c
      · have hM : matchesFrom (p :: ps) (c :: cs) = matchesFrom ps cs := by
          simp [matchesFrom, hc, hpc]
        rw [hM, IH]
        simp [hpc.symm]
      · have hM : matchesFrom (p :: ps) (c :: cs) = false := by
          simp [matchesFrom, hc, hpc]
        rw [hM]
        simp only [Bool.false_eq_true, false_iff]
        intro hR
        have hcp := hR (c, p) (by simp)
        rcases hcp with h1 | h1
        · exact hc h1
        · exact hpc h1.symm

/-- C2 (amended): in the locator's positional matching a gap character
in the sequence at a comparison position is an automatic match that
consumes one sequence position and also advances the pattern cursor:
under the scan bound, a window matches iff every window position either
is a gap or equals the pattern character at the same offset. -/
theorem claim_C2_amended_gap_advance (p s : List Char) (i : Nat)
    (hle : i + p.length ≤ s.length) :
    matchesAt p s i = true ↔
      ∀ pr ∈ ((s.drop i).take p.length).zip p, pr.1 = '-' ∨ pr.1 = pr.2 := by
  have hlen : p.length ≤ (s.drop i).length := by
    rw [List.length_drop]
    omega
  exact matchesFrom_iff_pointwise p (s.drop i) hlen


/-- C2 (counterexample): the claim says a sequence gap does not advance
the pattern cursor. On sequence `A-T` with pattern `AC`, the
gap-transparent rule worded by the spec finds no match (after the gap,
`T` would still have to match `C`), yet the code's matcher accepts
offset 0 and the locator reports a match at `(0, 1)`: the gap skipped
the pattern character `C` as well. -/
theorem claim_C2_counterexample :
    matchesAt ['A', 'C'] ['A', '-', 'T'] 0 = true ∧
    specGapConsume ['A', 'C'] ['A', '-', 'T'] = false ∧
    find_primer_positions ['A', 'C'] ['A', '-', 'T'] 0 2 false = some (0, 1) := by
  decide


/-- Witness for the amended C2 at the gapped window `A-T`. -/
theorem claim_C2_witness :
    matchesAt ['A', 'C'] ['A', '-', 'T'] 0 = true :=
  (claim_C2_amended_gap_advance ['A', 'C'] ['A', '-', 'T'] 0 (by decide)).mpr (by decide)

/-- The `try/except ValueError: continue` loop: keeping the defined
Hamming distances is the same as first discarding length-mismatched
pairs and then counting mismatches. -/
lemma filterMap_hamming (l : List (List Char × List Char)) :
    l.filterMap (fun pr => hamming_distance pr.1 pr.2) =
      (l.filter (fun pr => pr.1.length = pr.2.length)).map
        (fun pr => mismatchCount pr.1 pr.2) := by
  induction l with
  | nil => rfl
  | cons x xs ih =>
    by_cases hx : x.1.length = x.2.length
    · simp only [List.filterMap_cons, List.filter_cons, ih]
      simp [hamming_distance, mismatchCount, hx]
    · simp only [List.filterMap_cons, List.filter_cons, ih]
      simp [hamming_distance, mismatchCount, hx]

/-- Elements of the first-occurrence deduplication come from the
input list. -/
lemma mem_of_mem_firstOccurrencesAux :
    ∀ (l seen : List (List Char)) (x : List Char),
      x ∈ firstOccurrencesAux seen l → x ∈ l := by
  intro l
  induction l with
  | nil => intro seen x hx; simp [firstOccurrencesAux] at hx
  | cons s rest ih =>
    intro seen x hx
    rw [firstOccurrencesAux] at hx
    by_cases hs : s ∈ seen
    · rw [if_pos hs] at hx
      exact List.mem_cons_of_mem _ (ih seen x hx)
    · rw [if_neg hs] at hx
      rcases List.mem_cons.mp hx with rfl | hx2
      · exact List.mem_cons_self _ _
      · exact List.mem_cons_of_mem _ (ih (s :: seen) x hx2)

/-- The first-occurrence deduplication has no duplicates and avoids the
already-seen values. -/
lemma firstOccurrencesAux_nodup :
    ∀ (l seen : List (List Char)),
      (firstOccurrencesAux seen l).Nodup ∧
        ∀ x ∈ firstOccurrencesAux seen l, x ∉ seen := by
  intro l
  induction l with
  | nil => intro seen; simp [firstOccurrencesAux]
  | cons s rest ih =>
    intro seen
    rw [firstOccurrencesAux]
    by_cases hs : s ∈ seen
    · rw [if_pos hs]
      exact ih seen
    · rw [if_neg hs]
      obtain ⟨hnd, hout⟩ := ih (s :: seen)
      refine ⟨List.nodup_cons.mpr ⟨fun hmem => ?_, hnd⟩, ?_⟩
      · exact (hout s hmem) (List.mem_cons_self _ _)
      · intro x hx
        rcases List.mem_cons.mp hx with rfl | hx2
        · exact hs
        · exact fun hxseen => (hout x hx2) (List.mem_cons_of_mem _ hxseen)

/-- C6: the analyzer's distance multiset contains exactly one distance
per unordered pair of distinct variants of equal length (unequal-length
pairs are skipped silently), the reported median is 0 when that
multiset is empty, and the zero- and one-record inputs produce the
degenerate summaries `(0,0,0)` and `(1,1,0)` rather than an error. -/
theorem claim_C6_analyzer (rows : List (List Char × List Char)) (hd sq : List Char) :
    distancesOf rows =
      ((offDiagPairs (uniqueVariants rows)).filter
          (fun pr => pr.1.length = pr.2.length)).map
        (fun pr => mismatchCount pr.1 pr.2) ∧
    (uniqueVariants rows).Nodup ∧
    (distancesOf rows = [] → (analyze_csv rows).2.2 = 0) ∧
    analyze_csv [] = (0, 0, 0) ∧
    analyze_csv [(hd, sq)] = (1, 1, 0) := by
  refine ⟨filterMap_hamming _, (firstOccurrencesAux_nodup _ _).1, fun hempty => ?_,
    rfl, rfl⟩
  rw [analyze_csv]
  split
  · rfl
  · split
    · rfl
    · simp [hempty]

/-- Witness for C6 at a duplicate-variant input (empty distance
multiset) and a one-record input. -/
theorem claim_C6_witness :
    (analyze_csv [(['a'], ['A', 'C']), (['b'], ['A', 'C'])]).2.2 = 0 ∧
    analyze_csv [(['h'], ['A', 'C'])] = (1, 1, 0) :=
  ⟨(claim_C6_analyzer [(['a'], ['A', 'C']), (['b'], ['A', 'C'])] [] []).2.2.1 (by decide),
   (claim_C6_analyzer [] ['h'] ['A', 'C']).2.2.2.2⟩

/-- C7: on the variant set `{AAAA, AAAT, AATT}` the analyzer's pairwise
Hamming distances are `[1, 2, 1]` and the reported median is 1. -/
theorem claim_C7_median_example :
    distancesOf [(['h', '1'], ['A', 'A', 'A', 'A']), (['h', '2'], ['A', 'A', 'A', 'T']),
        (['h', '3'], ['A', 'A', 'T', 'T'])] = [1, 2, 1] ∧
    analyze_csv [(['h', '1'], ['A', 'A', 'A', 'A']), (['h', '2'], ['A', 'A', 'A', 'T']),
        (['h', '3'], ['A', 'A', 'T', 'T'])] = (3, 3, 1) := by
  constructor
  · decide
  · show _ = ((3 : Nat), (3 : Nat), (1 : ℚ))
    norm_num [analyze_csv]
    decide

/-- The seed of a left max-fold bounds it from below. -/
lemma le_foldl_max (l : List Nat) (a : Nat) : a ≤ l.foldl max a := by
  induction l generalizing a with
  | nil => exact Nat.le_refl a
  | cons x xs ih => exact Nat.le_trans (Nat.le_max_left a x) (ih (max a x))

/-- Every member of a list bounds its left max-fold from below. -/
lemma mem_le_foldl_max {x : Nat} (l : List Nat) (a : Nat) (hx : x ∈ l) :
    x ≤ l.foldl max a := by
  induction l generalizing a with
  | nil => cases hx
  | cons y ys ih =>
    rcases List.mem_cons.mp hx with rfl | hx2
    · exact Nat.le_trans (Nat.le_max_right a x) (le_foldl_max ys (max a x))
    · exact ih (max a y) hx2

/-- A list of length at most one has at most one member. -/
lemma eq_of_length_le_one {α : Type} {l : List α} (h : l.length ≤ 1)
    {x y : α} (hx : x ∈ l) (hy : y ∈ l) : x = y := by
  match l, hx with
  | [z], hx =>
    rcases List.mem_singleton.mp hx with rfl
    rcases List.mem_singleton.mp hy with rfl
    rfl
  | z :: w :: rest, _ => simp at h

/-- C5: the selector keeps only summaries with amplicon length strictly
below the maximum (the constant 500 of the code), among survivors
returns a summary with maximal unique-variant count whose median
Hamming distance is maximal among survivors tying that count, returns
`none` when nothing survives, and on the A/B/C scenario picks B. -/
theorem claim_C5_selector (rows : List Summary) (r : Summary) :
    (selectBest rows = some r →
      r ∈ rows ∧ r.len < 500 ∧
      (∀ s ∈ rows, s.len < 500 → s.u ≤ r.u) ∧
      (∀ s ∈ rows, s.len < 500 → s.u = r.u → s.m ≤ r.m)) ∧
    ((∀ s ∈ rows, 500 ≤ s.len) → selectBest rows = none) ∧
    selectBest [⟨5, 2, 300⟩, ⟨5, 4, 450⟩, ⟨6, 1, 600⟩] = some ⟨5, 4, 450⟩ := by
  refine ⟨fun hsel => ?_, fun hall => ?_, by decide⟩
  · simp only [selectBest] at hsel
    split at hsel
    · cases hsel
    · split at hsel
      · -- argmax branch
        have hargmax : r ∈ (rows.filter (fun t => t.len < 500) |>.filter
            (fun t => t.u = (rows.filter (fun t => t.len < 500) |>.map Summary.u).foldl max 0)).argmax Summary.m :=
          Option.mem_def.mpr hsel
        have hrmax := List.argmax_mem hargmax
        have hrfil := List.mem_filter.mp hrmax
        have hru : r.u = ((rows.filter (fun t => t.len < 500)).map Summary.u).foldl max 0 := by
          have := hrfil.2
          simpa using this
        have hrrows := List.mem_filter.mp hrfil.1
        have hrlen : r.len < 500 := by simpa using hrrows.2
        refine ⟨hrrows.1, hrlen, fun s hs hslen => ?_, fun s hs hslen hsu => ?_⟩
        · have hsfil : s ∈ rows.filter (fun t => t.len < 500) :=
            List.mem_filter.mpr ⟨hs, by simpa using hslen⟩
          have : s.u ∈ (rows.filter (fun t => t.len < 500)).map Summary.u :=
            List.mem_map_of_mem _ hsfil
          rw [hru]
          exact mem_le_foldl_max _ 0 this
        · have hsfil : s ∈ rows.filter (fun t => t.len < 500) :=
            List.mem_filter.mpr ⟨hs, by simpa using hslen⟩
          have hsmaxrow : s ∈ (rows.filter (fun t => t.len < 500)).filter
              (fun t => t.u = ((rows.filter (fun t => t.len < 500)).map Summary.u).foldl max 0) :=
            List.mem_filter.mpr ⟨hsfil, by rw [decide_eq_true_iff]; rw [hsu]; exact hru⟩
          exact List.le_of_mem_argmax hsmaxrow hargmax
      · -- head? branch (at most one row at the max count)
        rename_i hnotlt
        have hrmax : r ∈ (rows.filter (fun t => t.len < 500)).filter
            (fun t => t.u = ((rows.filter (fun t => t.len < 500)).map Summary.u).foldl max 0) := by
          rcases hmr : (rows.filter (fun t => t.len < 500)).filter
              (fun t => t.u = ((rows.filter (fun t => t.len < 500)).map Summary.u).foldl max 0) with _ | ⟨z, zs⟩
          · rw [hmr] at hsel; cases hsel
          · rw [hmr] at hsel
            cases hsel
            rw [hmr]
            exact List.mem_cons_self _ _
        have hrfil := List.mem_filter.mp hrmax
        have hru : r.u = ((rows.filter (fun t => t.len < 500)).map Summary.u).foldl max 0 := by
          simpa using hrfil.2
        have hrrows := List.mem_filter.mp hrfil.1
        have hrlen : r.len < 500 := by simpa using hrrows.2
        refine ⟨hrrows.1, hrlen, fun s hs hslen => ?_, fun s hs hslen hsu => ?_⟩
        · have hsfil : s ∈ rows.filter (fun t => t.len < 500) :=
            List.mem_filter.mpr ⟨hs, by simpa using hslen⟩
          have : s.u ∈ (rows.filter (fun t => t.len < 500)).map Summary.u :=
            List.mem_map_of_mem _ hsfil
          rw [hru]
          exact mem_le_foldl_max _ 0 this
        · have hsfil : s ∈ rows.filter (fun t => t.len < 500) :=
            List.mem_filter.mpr ⟨hs, by simpa using hslen⟩
          have hsmaxrow : s ∈ (rows.filter (fun t => t.len < 500)).filter
              (fun t => t.u = ((rows.filter (fun t => t.len < 500)).map Summary.u).foldl max 0) :=
            List.mem_filter.mpr ⟨hsfil, by rw [decide_eq_true_iff]; rw [hsu]; exact hru⟩
          have hle : ((rows.filter (fun t => t.len < 500)).filter
              (fun t => t.u = ((rows.filter (fun t => t.len < 500)).map Summary.u).foldl max 0)).length ≤ 1 :=
            Nat.not_lt.mp hnotlt
          rw [eq_of_length_le_one hle hsmaxrow hrmax]
  · have hfil : rows.filter (fun t => t.len < 500) = [] :=
      List.filter_eq_nil_iff.mpr (fun s hs => by simpa using Nat.not_lt.mpr (hall s hs))
    rw [selectBest, hfil]
    rfl

/-- Witness for C5: the no-survivor case and the properties of the
scenario's selected summary. -/
theorem claim_C5_witness :
    selectBest [(⟨5, 2, 600⟩ : Summary)] = none ∧
    (∀ s ∈ [(⟨5, 2, 300⟩ : Summary), ⟨5, 4, 450⟩, ⟨6, 1, 600⟩],
      s.len < 500 → s.u ≤ 5) := by
  constructor
  · exact (claim_C5_selector [⟨5, 2, 600⟩] ⟨0, 0, 0⟩).2.1 (by decide)
  · have h := (claim_C5_selector [⟨5, 2, 300⟩, ⟨5, 4, 450⟩, ⟨6, 1, 600⟩] ⟨5, 4, 450⟩).1
      ((claim_C5_selector [⟨5, 2, 300⟩, ⟨5, 4, 450⟩, ⟨6, 1, 600⟩] ⟨5, 4, 450⟩).2.2)
    exact h.2.2.1

/-- C9 (counterexample): a sequence for which the forward primer is
absent from every search window (the locator returns the not-found
signal even on the whole-sequence pass), yet the per-sequence loop
records no row at all: the variant pre-screen
(`if not fmatch: continue`) drops the sequence silently instead of
writing a `FORWARD_PRIMER_NOT_FOUND` row. -/
theorem claim_C9_counterexample :
    find_primer_positions ['N'] ['T', 'T', 'T', 'T', 'T', 'T'] 0 1 false = none ∧
    processSeq ⟨['N'], [['A']], ['N'], [['A']], 0, 1, 4, 5⟩ ['h']
      ['T', 'T', 'T', 'T', 'T', 'T'] = none := by
  decide

/-- C9 (amended): for sequences that pass the variant pre-screen (some
forward variant occurs in the dashless forward slice and some reverse
variant's reverse complement occurs in the dashless reverse slice,
both non-empty), a primer absent from the expected and fallback search
windows still yields a recorded row for that sequence with status
`FORWARD_PRIMER_NOT_FOUND` (forward checked first) or
`REVERSE_PRIMER_NOT_FOUND`, and the per-sequence loop processes each
sequence independently, so one sequence's outcome never stops the
others; sequences failing the pre-screen are skipped with no row. -/
theorem claim_C9_not_found_rows (A : PrimerPair) (hd sq : List Char)
    (xs ys : List (List Char × List Char)) :
    (∀ fm rm,
      A.fvars.find? (fun v =>
        containsSub (stripGaps (pySlice sq (A.fstart - 1) (A.fend + 2))) v) = some fm →
      fm ≠ [] →
      A.rvars.find? (fun v =>
        containsSub (stripGaps (pySlice sq (A.rstart - 1) (A.rend + 2)))
          (reverse_complement v)) = some rm →
      rm ≠ [] →
      find_primer_positions A.fdeg sq A.fstart A.fend false = none →
      ∃ row, processSeq A hd sq = some row ∧ row.header = hd ∧
        row.status = .FORWARD_PRIMER_NOT_FOUND) ∧
    (∀ fm rm p,
      A.fvars.find? (fun v =>
        containsSub (stripGaps (pySlice sq (A.fstart - 1) (A.fend + 2))) v) = some fm →
      fm ≠ [] →
      A.rvars.find? (fun v =>
        containsSub (stripGaps (pySlice sq (A.rstart - 1) (A.rend + 2)))
          (reverse_complement v)) = some rm →
      rm ≠ [] →
      find_primer_positions A.fdeg sq A.fstart A.fend false = some p →
      find_primer_positions A.rdeg sq A.rstart A.rend true = none →
      ∃ row, processSeq A hd sq = some row ∧ row.header = hd ∧
        row.status = .REVERSE_PRIMER_NOT_FOUND) ∧
    processRows A (xs ++ ys) = processRows A xs ++ processRows A ys := by
  refine ⟨fun fm rm hfm hfmne hrm hrmne hnone => ?_,
    fun fm rm p hfm hfmne hrm hrmne hsome hnone => ?_, ?_⟩
  · have hps : processSeq A hd sq = some
        { header := hd, ampStart := A.fend + 1, ampEnd := A.rstart,
          ampliconRaw := ampliconSliceRaw sq (A.fend + 1) A.rstart,
          fmatch := fm, rmatch := rm, status := .FORWARD_PRIMER_NOT_FOUND } := by
      simp only [processSeq, hfm, hrm, hnone, List.isEmpty_eq_true]
      rw [if_neg hfmne, if_neg hrmne]
      simp [extractRow, computeStatus, fallbackAdjust]
    exact ⟨_, hps, rfl, rfl⟩
  · have hps : processSeq A hd sq = some
        { header := hd, ampStart := A.fend + 1, ampEnd := A.rstart,
          ampliconRaw := ampliconSliceRaw sq (A.fend + 1) A.rstart,
          fmatch := fm, rmatch := rm, status := .REVERSE_PRIMER_NOT_FOUND } := by
      simp only [processSeq, hfm, hrm, hsome, hnone, List.isEmpty_eq_true]
      rw [if_neg hfmne, if_neg hrmne]
      simp [extractRow, computeStatus, fallbackAdjust]
    exact ⟨_, hps, rfl, rfl⟩
  · exact List.filterMap_append _ _ _

/-- Witness for the amended C9: a sequence passing the pre-screen whose
degenerate forward primer (an ambiguity code) matches nowhere, recorded
with status `FORWARD_PRIMER_NOT_FOUND`. -/
theorem claim_C9_witness :
    ∃ row, processSeq ⟨['N'], [['T']], ['N'], [['A']], 0, 1, 4, 5⟩ ['h']
        ['T', 'T', 'T', 'T', 'T', 'T'] = some row ∧ row.header = ['h'] ∧
      row.status = .FORWARD_PRIMER_NOT_FOUND :=
  (claim_C9_not_found_rows ⟨['N'], [['T']], ['N'], [['A']], 0, 1, 4, 5⟩ ['h']
      ['T', 'T', 'T', 'T', 'T', 'T'] [] []).1 ['T'] ['A']
    (by decide) (by decide) (by decide) (by decide) (by decide)
